import Mathlib

/-!
Verification development for the invoice reconciliation application.

The numeric-string parsers are shallow embeddings of
`src/parsers/reconcile_excel.py::_parse_number` and
`src/parsers/parsers/invoice_pdf.py::_parse_number`; totals extraction embeds
`src/parsers/parsers/invoice_pdf.py::extract_totals_from_text_content`.
Python floats are modelled as rationals; Python `float(str)` conversion is
modelled as a fallible function returning `Option ℚ`.
The reconciliation engine itself (`core/compare.py`) is not part of the
available sources, so its operations are modelled from the specification
(see the doc comments starting with `Modelled from the spec:`).
-/

namespace InvoiceCompare

/-- Model of the whitespace characters stripped by Python `str.strip()` and
matched by the regex class `\s` (the ASCII ones, which are the only ones the
parsed numeric strings can contain). -/
def isPyWhite (c : Char) : Bool :=
  c == ' ' || c == '\t' || c == '\n' || c == '\r' || c == Char.ofNat 11 || c == Char.ofNat 12

/-- Model of Python `str.strip()`: drop leading and trailing whitespace. -/
def pyStrip (l : List Char) : List Char :=
  ((l.dropWhile isPyWhite).reverse.dropWhile isPyWhite).reverse

/-- Auxiliary scan computing the index of the last occurrence of a character. -/
def rfindPosAux (c : Char) : List Char → Nat → Int → Int
  | [], _, acc => acc
  | x :: xs, i, acc => rfindPosAux c xs (i + 1) (if x == c then Int.ofNat i else acc)

/-- Model of Python `str.rfind`: index of the last occurrence, `-1` if none. -/
def rfindPos (c : Char) (l : List Char) : Int :=
  rfindPosAux c l 0 (-1)

/-- Character class `[\d.]` of the Excel parser's final extraction regex. -/
def isNumChar (c : Char) : Bool :=
  c.isDigit || c == '.'

/-- Model of `re.search(r'-?[\d.]+', s)`: leftmost match of an optional minus
sign followed by a maximal nonempty run of digits and dots. -/
def findNum : List Char → Option (List Char)
  | [] => none
  | c :: rest =>
    if isNumChar c then some (c :: rest.takeWhile isNumChar)
    else if c == '-' && rest.head?.any isNumChar then some ('-' :: rest.takeWhile isNumChar)
    else findNum rest

/-- Numeric value of a list of decimal digit characters (most significant first). -/
def digitsVal (l : List Char) : Nat :=
  l.foldl (fun acc c => 10 * acc + (c.toNat - 48)) 0

/-- Unsigned part of the model of Python `float(str)`: an integer part and an
optional dot followed by a fractional part, at least one digit overall.
Exponents, `inf`, `nan`, underscores and inner whitespace are rejected, which
is faithful here because the strings reaching `float` in the parsers contain
only digits, dots, commas and minus signs. -/
def pyFloatCore (l : List Char) : Option ℚ :=
  let ip := l.takeWhile Char.isDigit
  let rest := l.dropWhile Char.isDigit
  if rest = [] then
    if ip.isEmpty then none else some (digitsVal ip : ℚ)
  else if rest.head? = some '.' then
    let fr := rest.tail
    if fr.all Char.isDigit && !(ip.isEmpty && fr.isEmpty) then
      some ((digitsVal ip : ℚ) + (digitsVal fr : ℚ) / 10 ^ fr.length)
    else none
  else none

/-- Model of Python `float(str)` on the character strings the parsers feed it,
returning `none` where Python raises `ValueError`. -/
def pyFloat? (l : List Char) : Option ℚ :=
  if l.head? = some '-' then (pyFloatCore l.tail).map (fun q => -q)
  else if l.head? = some '+' then pyFloatCore l.tail
  else pyFloatCore l

namespace ReconcileExcel

/-- Characters removed by `re.sub(r'[₫đvnd\s]', '', s, flags=re.IGNORECASE)` in
`reconcile_excel._parse_number`. -/
def strippedChar (c : Char) : Bool :=
  c == '₫' || c == 'đ' || c == 'Đ' || c == 'v' || c == 'V' || c == 'n' || c == 'N' ||
    c == 'd' || c == 'D' || isPyWhite c

/-- Cleaning phase of `reconcile_excel._parse_number`: strip, then remove
currency markers and whitespace. -/
def clean (l : List Char) : List Char :=
  (pyStrip l).filter (fun c => !strippedChar c)

/-- Separator-resolution phase of `reconcile_excel._parse_number`: the dot and
comma counting branch exactly as in the source. -/
def transform (l : List Char) : List Char :=
  if l.count '.' > 1 ∨ (l.count '.' = 1 ∧ l.count ',' = 1 ∧ rfindPos '.' l > rfindPos ',' l) then
    (l.filter (fun c => c ≠ '.')).map (fun c => if c = ',' then '.' else c)
  else if l.count ',' > 1 then
    l.filter (fun c => c ≠ ',')
  else l

/-- Fallible core of `reconcile_excel._parse_number`: `none` where the Python
code would take a recovery path (no regex match, or `float` raising). -/
def parseChars? (l : List Char) : Option ℚ :=
  match findNum (transform (clean l)) with
  | some g => pyFloat? g
  | none => none

/-- Embedding of `reconcile_excel._parse_number` on its string branch. -/
def parseChars (l : List Char) : ℚ :=
  match findNum (transform (clean l)) with
  | some g => (pyFloat? g).getD 0
  | none => 0

/-- String-level wrapper of the embedding of `reconcile_excel._parse_number`. -/
def parse_number (s : String) : ℚ :=
  parseChars s.data

/-- String-level wrapper of the fallible core. -/
def parse_number? (s : String) : Option ℚ :=
  parseChars? s.data

end ReconcileExcel

namespace InvoicePdf

/-- Characters kept by `re.sub(r'[^0-9.,-]', '', s)` in
`invoice_pdf._parse_number`. -/
def keptChar (c : Char) : Bool :=
  c.isDigit || c == '.' || c == ',' || c == '-'

/-- Cleaning phase of `invoice_pdf._parse_number`: strip, then keep only
digits, dots, commas and minus signs. -/
def clean (l : List Char) : List Char :=
  (pyStrip l).filter keptChar

/-- Separator-resolution phase of `invoice_pdf._parse_number`, exactly as in
the source. -/
def transform (l : List Char) : List Char :=
  if ('.' ∈ l) ∧ (',' ∈ l) then
    if rfindPos '.' l > rfindPos ',' l then
      (l.filter (fun c => c ≠ '.')).map (fun c => if c = ',' then '.' else c)
    else l.filter (fun c => c ≠ ',')
  else if l.count '.' > 1 then l.filter (fun c => c ≠ '.')
  else if l.count ',' > 1 then l.filter (fun c => c ≠ ',')
  else l

/-- Fallible core of `invoice_pdf._parse_number`: `none` where the Python code
would take a recovery path (empty cleaned string, or `float` raising). -/
def parseChars? (l : List Char) : Option ℚ :=
  if transform (clean l) = [] then none else pyFloat? (transform (clean l))

/-- Embedding of `invoice_pdf._parse_number` on its string branch. -/
def parseChars (l : List Char) : ℚ :=
  if transform (clean l) = [] then 0 else (pyFloat? (transform (clean l))).getD 0

/-- String-level wrapper of the embedding of `invoice_pdf._parse_number`. -/
def parse_number (s : String) : ℚ :=
  parseChars s.data

/-- String-level wrapper of the fallible core. -/
def parse_number? (s : String) : Option ℚ :=
  parseChars? s.data

end InvoicePdf

/-! Helper lemmas about the character-level primitives. -/

/-- A list all of whose elements fail the predicate is untouched by `dropWhile`. -/
theorem dropWhile_of_head_false {p : Char → Bool} {l : List Char}
    (h : ∀ c ∈ l, p c = false) : l.dropWhile p = l := by
  cases l with
  | nil => rfl
  | cons c rest => simp [List.dropWhile, h c (List.mem_cons_self c rest)]

/-- A list all of whose elements satisfy the predicate is kept whole by `takeWhile`. -/
theorem takeWhile_of_all {p : Char → Bool} {l : List Char}
    (h : ∀ c ∈ l, p c = true) : l.takeWhile p = l := by
  induction l with
  | nil => rfl
  | cons c rest ih =>
    simp only [List.takeWhile, h c (List.mem_cons_self c rest)]
    exact congrArg (c :: ·) (ih fun x hx => h x (List.mem_cons_of_mem c hx))

/-- A list all of whose elements satisfy the predicate is emptied by `dropWhile`. -/
theorem dropWhile_of_all {p : Char → Bool} {l : List Char}
    (h : ∀ c ∈ l, p c = true) : l.dropWhile p = [] := by
  induction l with
  | nil => rfl
  | cons c rest ih =>
    simp only [List.dropWhile, h c (List.mem_cons_self c rest)]
    exact ih fun x hx => h x (List.mem_cons_of_mem c hx)

/-- The `takeWhile` of a run of satisfying characters followed by a failing one. -/
theorem takeWhile_append_stop {p : Char → Bool} {a b : List Char} {x : Char}
    (ha : ∀ c ∈ a, p c = true) (hx : p x = false) :
    (a ++ x :: b).takeWhile p = a := by
  induction a with
  | nil => simp [List.takeWhile, hx]
  | cons c rest ih =>
    simp only [List.cons_append, List.takeWhile, ha c (List.mem_cons_self c rest)]
    exact congrArg (c :: ·) (ih fun y hy => ha y (List.mem_cons_of_mem c hy))

/-- The `dropWhile` of a run of satisfying characters followed by a failing one. -/
theorem dropWhile_append_stop {p : Char → Bool} {a b : List Char} {x : Char}
    (ha : ∀ c ∈ a, p c = true) (hx : p x = false) :
    (a ++ x :: b).dropWhile p = x :: b := by
  induction a with
  | nil => simp [List.dropWhile, hx]
  | cons c rest ih =>
    simp only [List.cons_append, List.dropWhile, ha c (List.mem_cons_self c rest)]
    exact ih fun y hy => ha y (List.mem_cons_of_mem c hy)

/-- A list whose characters fail `isPyWhite` is untouched by `pyStrip`. -/
theorem pyStrip_eq_self {l : List Char} (h : ∀ c ∈ l, isPyWhite c = false) :
    pyStrip l = l := by
  unfold pyStrip
  rw [dropWhile_of_head_false h, dropWhile_of_head_false (by simpa using h), List.reverse_reverse]

/-- A map that fixes every element of a list is the identity on it. -/
theorem map_eq_self {f : Char → Char} {l : List Char} (h : ∀ c ∈ l, f c = c) :
    l.map f = l := by
  induction l with
  | nil => rfl
  | cons c rest ih =>
    simp only [List.map, h c (List.mem_cons_self c rest)]
    exact congrArg (c :: ·) (ih fun x hx => h x (List.mem_cons_of_mem c hx))

/-- Digit characters are not '-' (used to resolve the sign match in `pyFloat?`). -/
theorem isDigit_ne_dash {c : Char} (h : c.isDigit = true) : c ≠ '-' := by
  intro he; subst he; simp at h

/-- Digit characters are not '+'. -/
theorem isDigit_ne_plus {c : Char} (h : c.isDigit = true) : c ≠ '+' := by
  intro he; subst he; simp at h

/-- Dropping the sign branches of `pyFloat?` when the head is a digit. -/
theorem pyFloat_of_digit_head {c : Char} (rest : List Char) (hd : c.isDigit = true) :
    pyFloat? (c :: rest) = pyFloatCore (c :: rest) := by
  simp [pyFloat?, isDigit_ne_dash hd, isDigit_ne_plus hd]

/-- Evaluation of `pyFloat?` on a nonempty all-digit string. -/
theorem pyFloat_digits {l : List Char} (h : ∀ c ∈ l, c.isDigit = true) (hne : l ≠ []) :
    pyFloat? l = some (digitsVal l : ℚ) := by
  have hcore : pyFloatCore l = some (digitsVal l : ℚ) := by
    unfold pyFloatCore
    rw [takeWhile_of_all h, dropWhile_of_all h]
    simp [List.isEmpty_iff, hne]
  obtain ⟨c, rest, rfl⟩ := List.exists_cons_of_ne_nil hne
  rw [pyFloat_of_digit_head rest (h c (List.mem_cons_self c rest))]
  exact hcore

/-- Evaluation of `pyFloat?` on an integer part, a dot and a fractional part. -/
theorem pyFloat_decimal {a b : List Char} (ha : ∀ c ∈ a, c.isDigit = true)
    (hb : ∀ c ∈ b, c.isDigit = true) (hne : a ≠ []) :
    pyFloat? (a ++ '.' :: b) = some ((digitsVal a : ℚ) + (digitsVal b : ℚ) / 10 ^ b.length) := by
  have hcore : pyFloatCore (a ++ '.' :: b) =
      some ((digitsVal a : ℚ) + (digitsVal b : ℚ) / 10 ^ b.length) := by
    unfold pyFloatCore
    rw [takeWhile_append_stop ha (by decide), dropWhile_append_stop ha (by decide)]
    simp
    exact ⟨hb, fun h => absurd h hne⟩
  obtain ⟨c, a', rfl⟩ := List.exists_cons_of_ne_nil hne
  rw [List.cons_append, pyFloat_of_digit_head _ (ha c (List.mem_cons_self c a')),
    ← List.cons_append]
  exact hcore

/-- A comma makes `pyFloat?` fail: Python `float` raises on it. -/
theorem pyFloat_comma_none {a : List Char} (b : List Char)
    (ha : ∀ c ∈ a, c.isDigit = true) :
    pyFloat? (a ++ ',' :: b) = none := by
  have hcore : pyFloatCore (a ++ ',' :: b) = none := by
    unfold pyFloatCore
    rw [takeWhile_append_stop ha (by decide), dropWhile_append_stop ha (by decide)]
    simp
  cases a with
  | nil =>
    rw [List.nil_append]
    rw [show pyFloat? (',' :: b) = pyFloatCore (',' :: b) by simp [pyFloat?]]
    simpa using hcore
  | cons c a' =>
    rw [List.cons_append, pyFloat_of_digit_head _ (ha c (List.mem_cons_self c a')),
      ← List.cons_append]
    exact hcore

/-- Characters that can make up a plain numeric token: digits, dots, commas. -/
def digitOrSep (c : Char) : Prop := c.isDigit = true ∨ c = '.' ∨ c = ','

/-- A digit character is not a dot. -/
theorem digit_ne_dot {c : Char} (h : c.isDigit = true) : c ≠ '.' := by
  rintro rfl; revert h; decide

/-- A digit character is not a comma. -/
theorem digit_ne_comma {c : Char} (h : c.isDigit = true) : c ≠ ',' := by
  rintro rfl; revert h; decide

/-- Numeric-token characters are not whitespace. -/
theorem isPyWhite_false_of_digitOrSep {c : Char} (h : digitOrSep c) : isPyWhite c = false := by
  rcases h with h | rfl | rfl
  · unfold isPyWhite
    simp only [Bool.or_eq_false_iff, beq_eq_false_iff_ne]
    repeat' apply And.intro
    all_goals (rintro rfl; revert h; decide)
  · decide
  · decide

/-- Numeric-token characters survive the Excel parser's currency stripping. -/
theorem strippedChar_false_of_digitOrSep {c : Char} (h : digitOrSep c) :
    ReconcileExcel.strippedChar c = false := by
  rcases h with h | rfl | rfl
  · unfold ReconcileExcel.strippedChar isPyWhite
    simp only [Bool.or_eq_false_iff, beq_eq_false_iff_ne]
    repeat' apply And.intro
    all_goals (rintro rfl; revert h; decide)
  · decide
  · decide

/-- Numeric-token characters survive the PDF parser's character filter. -/
theorem keptChar_true_of_digitOrSep {c : Char} (h : digitOrSep c) :
    InvoicePdf.keptChar c = true := by
  rcases h with h | rfl | rfl
  · simp [InvoicePdf.keptChar, h]
  · decide
  · decide

/-- The Excel parser's cleaning phase leaves a plain numeric token unchanged. -/
theorem excel_clean_id {l : List Char} (h : ∀ c ∈ l, digitOrSep c) :
    ReconcileExcel.clean l = l := by
  unfold ReconcileExcel.clean
  rw [pyStrip_eq_self (fun c hc => isPyWhite_false_of_digitOrSep (h c hc))]
  exact List.filter_eq_self.mpr fun c hc => by
    rw [strippedChar_false_of_digitOrSep (h c hc)]; rfl

/-- The PDF parser's cleaning phase leaves a plain numeric token unchanged. -/
theorem pdf_clean_id {l : List Char} (h : ∀ c ∈ l, digitOrSep c) :
    InvoicePdf.clean l = l := by
  unfold InvoicePdf.clean
  rw [pyStrip_eq_self (fun c hc => isPyWhite_false_of_digitOrSep (h c hc))]
  exact List.filter_eq_self.mpr fun c hc => keptChar_true_of_digitOrSep (h c hc)

/-- On a nonempty run of digits and dots, the extraction regex matches the
whole string. -/
theorem findNum_all {l : List Char} (h : ∀ c ∈ l, isNumChar c = true) (hne : l ≠ []) :
    findNum l = some l := by
  obtain ⟨c, rest, rfl⟩ := List.exists_cons_of_ne_nil hne
  simp only [findNum, if_pos (h c (List.mem_cons_self c rest))]
  rw [takeWhile_of_all fun x hx => h x (List.mem_cons_of_mem c hx)]

/-- The extraction regex stops a leading numeric run at the first excluded
character. -/
theorem findNum_run_stop {a b : List Char} {x : Char} (ha : ∀ c ∈ a, isNumChar c = true)
    (hane : a ≠ []) (hx : isNumChar x = false) : findNum (a ++ x :: b) = some a := by
  obtain ⟨c, a', rfl⟩ := List.exists_cons_of_ne_nil hane
  simp only [List.cons_append, findNum,
    if_pos (ha c (List.mem_cons_self c a')), List.append_eq]
  rw [takeWhile_append_stop (fun y hy => ha y (List.mem_cons_of_mem c hy)) hx]

/-- A list of characters with no occurrence of `x` has count zero for it. -/
theorem count_zero_of_ne {x : Char} {l : List Char} (h : ∀ c ∈ l, c ≠ x) :
    l.count x = 0 :=
  List.count_eq_zero.mpr fun hm => (h x hm) rfl

/-- The Excel parser's wrapper equals the fallible core with fallback zero. -/
theorem excel_total (l : List Char) :
    ReconcileExcel.parseChars l = (ReconcileExcel.parseChars? l).getD 0 := by
  unfold ReconcileExcel.parseChars ReconcileExcel.parseChars?
  cases findNum (ReconcileExcel.transform (ReconcileExcel.clean l)) <;> rfl

/-- The PDF parser's wrapper equals the fallible core with fallback zero. -/
theorem pdf_total (l : List Char) :
    InvoicePdf.parseChars l = (InvoicePdf.parseChars? l).getD 0 := by
  unfold InvoicePdf.parseChars InvoicePdf.parseChars?
  split_ifs <;> rfl

/-- Evaluation helper for the Excel parser when the extracted token is an
integer-dot-fraction shape. -/
theorem excel_eval_decimal (s : String) (a b : List Char) (q : ℚ)
    (h : findNum (ReconcileExcel.transform (ReconcileExcel.clean s.data)) = some (a ++ '.' :: b))
    (ha : ∀ c ∈ a, c.isDigit = true) (hb : ∀ c ∈ b, c.isDigit = true) (hane : a ≠ [])
    (hq : (digitsVal a : ℚ) + (digitsVal b : ℚ) / 10 ^ b.length = q) :
    ReconcileExcel.parse_number s = q := by
  unfold ReconcileExcel.parse_number ReconcileExcel.parseChars
  simp only [h, pyFloat_decimal ha hb hane, Option.getD_some]
  exact hq

/-- Evaluation helper for the Excel parser when the extracted token is all
digits. -/
theorem excel_eval_int (s : String) (g : List Char) (q : ℚ)
    (h : findNum (ReconcileExcel.transform (ReconcileExcel.clean s.data)) = some g)
    (hg : ∀ c ∈ g, c.isDigit = true) (hne : g ≠ [])
    (hq : (digitsVal g : ℚ) = q) :
    ReconcileExcel.parse_number s = q := by
  unfold ReconcileExcel.parse_number ReconcileExcel.parseChars
  simp only [h, pyFloat_digits hg hne, Option.getD_some]
  exact hq

/-- Evaluation helper for the PDF parser when the resolved string is an
integer-dot-fraction shape. -/
theorem pdf_eval_decimal (s : String) (a b : List Char) (q : ℚ)
    (h : InvoicePdf.transform (InvoicePdf.clean s.data) = a ++ '.' :: b)
    (ha : ∀ c ∈ a, c.isDigit = true) (hb : ∀ c ∈ b, c.isDigit = true) (hane : a ≠ [])
    (hq : (digitsVal a : ℚ) + (digitsVal b : ℚ) / 10 ^ b.length = q) :
    InvoicePdf.parse_number s = q := by
  unfold InvoicePdf.parse_number InvoicePdf.parseChars
  rw [h, if_neg (by simp), pyFloat_decimal ha hb hane, Option.getD_some]
  exact hq

/-- Evaluation helper for the PDF parser when the resolved string is all
digits. -/
theorem pdf_eval_int (s : String) (g : List Char) (q : ℚ)
    (h : InvoicePdf.transform (InvoicePdf.clean s.data) = g)
    (hg : ∀ c ∈ g, c.isDigit = true) (hne : g ≠ [])
    (hq : (digitsVal g : ℚ) = q) :
    InvoicePdf.parse_number s = q := by
  unfold InvoicePdf.parse_number InvoicePdf.parseChars
  rw [h, if_neg hne, pyFloat_digits hg hne, Option.getD_some]
  exact hq

/-- Evaluation helper for the PDF parser when the final float conversion
fails. -/
theorem pdf_eval_fail (s : String) (v : List Char)
    (h : InvoicePdf.transform (InvoicePdf.clean s.data) = v)
    (hv : pyFloat? v = none) : InvoicePdf.parse_number s = 0 := by
  unfold InvoicePdf.parse_number InvoicePdf.parseChars
  rw [h]
  split_ifs
  · rfl
  · rw [hv]; rfl

/-! Concrete evaluations settling the number-parsing claims. -/

/-- C1: contrary to the specified rightmost-separator rule, both `_parse_number`
implementations treat the comma as the decimal separator on "1,234.56"
(yielding 1.23456 instead of 1234.56), and the PDF implementation turns the
Vietnamese-format "1.000.000,50" into 0 instead of 1000000.50; the reversed
`rfind` comparison is a code bug. -/
theorem parse_number_rightmost_separator_bug :
    ReconcileExcel.parse_number "1,234.56" = 1.23456 ∧
    InvoicePdf.parse_number "1,234.56" = 1.23456 ∧
    ReconcileExcel.parse_number "1.000.000,50" = 1000000.50 ∧
    InvoicePdf.parse_number "1.000.000,50" = 0 ∧
    (1.23456 : ℚ) ≠ 1234.56 ∧ (0 : ℚ) ≠ 1000000.50 := by
  refine ⟨?_, ?_, ?_, ?_, by norm_num, by norm_num⟩
  · refine excel_eval_decimal "1,234.56" "1".data "23456".data 1.23456
      (by decide) (by decide) (by decide) (by decide) ?_
    rw [show digitsVal "1".data = 1 by decide, show digitsVal "23456".data = 23456 by decide,
      show ("23456".data).length = 5 by decide]
    norm_num
  · refine pdf_eval_decimal "1,234.56" "1".data "23456".data 1.23456
      (by decide) (by decide) (by decide) (by decide) ?_
    rw [show digitsVal "1".data = 1 by decide, show digitsVal "23456".data = 23456 by decide,
      show ("23456".data).length = 5 by decide]
    norm_num
  · refine excel_eval_decimal "1.000.000,50" "1000000".data "50".data 1000000.50
      (by decide) (by decide) (by decide) (by decide) ?_
    rw [show digitsVal "1000000".data = 1000000 by decide,
      show digitsVal "50".data = 50 by decide, show ("50".data).length = 2 by decide]
    norm_num
  · exact pdf_eval_fail "1.000.000,50" "1.000.00050".data (by decide) (by decide)

/-- C2 counterexample: a single dot is always taken as the decimal separator,
so "1.000" parses to 1 in both implementations, not to the 1000 the
single-separator rule of the specification prescribes. -/
theorem parse_number_single_dot_cex :
    ReconcileExcel.parse_number "1.000" = 1 ∧
    InvoicePdf.parse_number "1.000" = 1 ∧ (1 : ℚ) ≠ 1000 := by
  refine ⟨?_, ?_, by norm_num⟩
  · refine excel_eval_decimal "1.000" "1".data "000".data 1
      (by decide) (by decide) (by decide) (by decide) ?_
    rw [show digitsVal "1".data = 1 by decide, show digitsVal "000".data = 0 by decide]
    norm_num
  · refine pdf_eval_decimal "1.000" "1".data "000".data 1
      (by decide) (by decide) (by decide) (by decide) ?_
    rw [show digitsVal "1".data = 1 by decide, show digitsVal "000".data = 0 by decide]
    norm_num

/-- C10 counterexample: the two `_parse_number` implementations disagree on
"1.234,56": the Excel one reads only the digits-and-dots prefix "1.234" and
returns 1.234, while the PDF one removes the comma and returns 1.23456. -/
theorem parse_number_implementations_disagree_cex :
    ReconcileExcel.parse_number "1.234,56" = 1.234 ∧
    InvoicePdf.parse_number "1.234,56" = 1.23456 ∧
    ReconcileExcel.parse_number "1.234,56" ≠ InvoicePdf.parse_number "1.234,56" := by
  have h1 : ReconcileExcel.parse_number "1.234,56" = 1.234 := by
    refine excel_eval_decimal "1.234,56" "1".data "234".data 1.234
      (by decide) (by decide) (by decide) (by decide) ?_
    rw [show digitsVal "1".data = 1 by decide, show digitsVal "234".data = 234 by decide,
      show ("234".data).length = 3 by decide]
    norm_num
  have h2 : InvoicePdf.parse_number "1.234,56" = 1.23456 := by
    refine pdf_eval_decimal "1.234,56" "1".data "23456".data 1.23456
      (by decide) (by decide) (by decide) (by decide) ?_
    rw [show digitsVal "1".data = 1 by decide, show digitsVal "23456".data = 23456 by decide,
      show ("23456".data).length = 5 by decide]
    norm_num
  refine ⟨h1, h2, ?_⟩
  rw [h1, h2]
  norm_num

/-- C3: number parsing is total: every failure path of the fallible core (no
regex match, empty cleaned string, `float` raising `ValueError`) is recovered
to 0, and every successful conversion is returned unchanged. -/
theorem parse_number_total_on_strings (s : String) :
    (ReconcileExcel.parse_number? s = none → ReconcileExcel.parse_number s = 0) ∧
    (∀ q : ℚ, ReconcileExcel.parse_number? s = some q → ReconcileExcel.parse_number s = q) ∧
    (InvoicePdf.parse_number? s = none → InvoicePdf.parse_number s = 0) ∧
    (∀ q : ℚ, InvoicePdf.parse_number? s = some q → InvoicePdf.parse_number s = q) := by
  unfold ReconcileExcel.parse_number ReconcileExcel.parse_number?
    InvoicePdf.parse_number InvoicePdf.parse_number?
  refine ⟨fun h => ?_, fun q h => ?_, fun h => ?_, fun q h => ?_⟩
  · rw [excel_total, h]; rfl
  · rw [excel_total, h]; rfl
  · rw [pdf_total, h]; rfl
  · rw [pdf_total, h]; rfl

/-- Witness for C3 at the unparsable input "abc": both parsers recover to 0. -/
theorem parse_number_total_on_strings_witness :
    ReconcileExcel.parse_number? "abc" = none ∧ ReconcileExcel.parse_number "abc" = 0 ∧
    InvoicePdf.parse_number? "abc" = none ∧ InvoicePdf.parse_number "abc" = 0 :=
  ⟨by decide, (parse_number_total_on_strings "abc").1 (by decide), by decide,
    (parse_number_total_on_strings "abc").2.2.1 (by decide)⟩

/-! General evaluation lemmas on plain digit tokens, used for the amended
single-separator and implementation-agreement statements. -/

/-- Digits are in the extraction regex's character class. -/
theorem isNumChar_of_digit {c : Char} (h : c.isDigit = true) : isNumChar c = true := by
  simp [isNumChar, h]

/-- A list of digits and dots contains no comma. -/
theorem comma_not_mem {l : List Char} (h : ∀ x ∈ l, x.isDigit = true ∨ x = '.') :
    ',' ∉ l := by
  intro hm
  rcases h ',' hm with hd | hd
  · revert hd; decide
  · revert hd; decide

/-- A list of digits and commas contains no dot. -/
theorem dot_not_mem {l : List Char} (h : ∀ x ∈ l, x.isDigit = true ∨ x = ',') :
    '.' ∉ l := by
  intro hm
  rcases h '.' hm with hd | hd
  · revert hd; decide
  · revert hd; decide

/-- Filtering away a character that never occurs is the identity. -/
theorem filter_ne_of_all {y : Char} {l : List Char} (h : ∀ x ∈ l, x ≠ y) :
    l.filter (fun c => c ≠ y) = l :=
  List.filter_eq_self.mpr fun x hx => by simpa using h x hx

/-- The comma-to-dot substitution fixes comma-free lists. -/
theorem map_comma_fix {l : List Char} (h : ∀ x ∈ l, x ≠ ',') :
    l.map (fun c => if c = ',' then '.' else c) = l :=
  map_eq_self fun x hx => if_neg (h x hx)

/-- Dropping a cons cell whose head is the filtered-out character. -/
theorem filter_cons_self {y : Char} (b : List Char) :
    (y :: b).filter (fun c => c ≠ y) = b.filter (fun c => c ≠ y) := by
  rw [List.filter_cons, if_neg (by simp)]

/-- Filtering a separator out of a run of clean characters followed by the
separator and a remainder. -/
theorem filter_strip_sep {y : Char} {a : List Char} (b : List Char)
    (ha : ∀ x ∈ a, x ≠ y) :
    (a ++ y :: b).filter (fun c => c ≠ y) = a ++ b.filter (fun c => c ≠ y) := by
  rw [List.filter_append, filter_ne_of_all ha, filter_cons_self]

/-- Pointwise property transport over a two-separator token. -/
theorem mem_token2 {P : Char → Prop} {a b c : List Char} {y : Char}
    (hA : ∀ x ∈ a, P x) (hB : ∀ x ∈ b, P x) (hC : ∀ x ∈ c, P x) (hy : P y) :
    ∀ x ∈ a ++ y :: b ++ y :: c, P x := by
  intro x hx
  rcases List.mem_append.1 hx with h | h
  · rcases List.mem_append.1 h with h | h
    · exact hA x h
    · rcases List.mem_cons.1 h with rfl | h
      · exact hy
      · exact hB x h
  · rcases List.mem_cons.1 h with rfl | h
    · exact hy
    · exact hC x h

/-- Pointwise property transport over a one-separator token. -/
theorem mem_token1 {P : Char → Prop} {a b : List Char} {y : Char}
    (hA : ∀ x ∈ a, P x) (hB : ∀ x ∈ b, P x) (hy : P y) :
    ∀ x ∈ a ++ y :: b, P x := by
  intro x hx
  rcases List.mem_append.1 hx with h | h
  · exact hA x h
  · rcases List.mem_cons.1 h with rfl | h
    · exact hy
    · exact hB x h

/-- Pointwise property transport over a three-part append. -/
theorem mem_append3 {P : Char → Prop} {a b c : List Char}
    (hA : ∀ x ∈ a, P x) (hB : ∀ x ∈ b, P x) (hC : ∀ x ∈ c, P x) :
    ∀ x ∈ a ++ b ++ c, P x := by
  intro x hx
  rcases List.mem_append.1 hx with h | h
  · rcases List.mem_append.1 h with h | h
    · exact hA x h
    · exact hB x h
  · exact hC x h

/-- Excel separator resolution on digits-dot-digits-dot-digits: the dots are
taken as thousands separators and removed. -/
theorem excel_transform_2dots {a b c : List Char} (hA : ∀ x ∈ a, x.isDigit = true)
    (hB : ∀ x ∈ b, x.isDigit = true) (hC : ∀ x ∈ c, x.isDigit = true) :
    ReconcileExcel.transform (a ++ '.' :: b ++ '.' :: c) = a ++ b ++ c := by
  have hdc : (a ++ '.' :: b ++ '.' :: c).count '.' = 2 := by
    simp [List.count_append, List.count_cons,
      count_zero_of_ne fun x hx => digit_ne_dot (hA x hx),
      count_zero_of_ne fun x hx => digit_ne_dot (hB x hx),
      count_zero_of_ne fun x hx => digit_ne_dot (hC x hx)]
  unfold ReconcileExcel.transform
  rw [if_pos (Or.inl (by rw [hdc]; norm_num))]
  rw [List.filter_append, filter_strip_sep b (fun x hx => digit_ne_dot (hA x hx)),
    filter_ne_of_all fun x hx => digit_ne_dot (hB x hx), filter_cons_self,
    filter_ne_of_all fun x hx => digit_ne_dot (hC x hx)]
  exact map_comma_fix (mem_append3 (fun x hx => digit_ne_comma (hA x hx))
    (fun x hx => digit_ne_comma (hB x hx)) (fun x hx => digit_ne_comma (hC x hx)))

/-- Excel separator resolution on digits-comma-digits-comma-digits: the commas
are taken as thousands separators and removed. -/
theorem excel_transform_2commas {a b c : List Char} (hA : ∀ x ∈ a, x.isDigit = true)
    (hB : ∀ x ∈ b, x.isDigit = true) (hC : ∀ x ∈ c, x.isDigit = true) :
    ReconcileExcel.transform (a ++ ',' :: b ++ ',' :: c) = a ++ b ++ c := by
  have hdc : (a ++ ',' :: b ++ ',' :: c).count '.' = 0 := by
    simp [List.count_append, List.count_cons,
      count_zero_of_ne fun x hx => digit_ne_dot (hA x hx),
      count_zero_of_ne fun x hx => digit_ne_dot (hB x hx),
      count_zero_of_ne fun x hx => digit_ne_dot (hC x hx)]
  have hcc : (a ++ ',' :: b ++ ',' :: c).count ',' = 2 := by
    simp [List.count_append, List.count_cons,
      count_zero_of_ne fun x hx => digit_ne_comma (hA x hx),
      count_zero_of_ne fun x hx => digit_ne_comma (hB x hx),
      count_zero_of_ne fun x hx => digit_ne_comma (hC x hx)]
  unfold ReconcileExcel.transform
  rw [if_neg (not_or.mpr ⟨by rw [hdc]; norm_num, fun hand => by
    rw [hdc] at hand; exact absurd hand.1 (by norm_num)⟩)]
  rw [if_pos (by rw [hcc]; norm_num)]
  rw [List.filter_append, filter_strip_sep b (fun x hx => digit_ne_comma (hA x hx)),
    filter_ne_of_all fun x hx => digit_ne_comma (hB x hx), filter_cons_self,
    filter_ne_of_all fun x hx => digit_ne_comma (hC x hx)]

/-- Excel separator resolution leaves a single-dot token unchanged. -/
theorem excel_transform_1dot {a b : List Char} (hA : ∀ x ∈ a, x.isDigit = true)
    (hB : ∀ x ∈ b, x.isDigit = true) :
    ReconcileExcel.transform (a ++ '.' :: b) = a ++ '.' :: b := by
  have hdc : (a ++ '.' :: b).count '.' = 1 := by
    simp [List.count_append, List.count_cons,
      count_zero_of_ne fun x hx => digit_ne_dot (hA x hx),
      count_zero_of_ne fun x hx => digit_ne_dot (hB x hx)]
  have hcc : (a ++ '.' :: b).count ',' = 0 := by
    simp [List.count_append, List.count_cons,
      count_zero_of_ne fun x hx => digit_ne_comma (hA x hx),
      count_zero_of_ne fun x hx => digit_ne_comma (hB x hx)]
  unfold ReconcileExcel.transform
  rw [if_neg (not_or.mpr ⟨by rw [hdc]; norm_num, fun hand => by
    rw [hcc] at hand; exact absurd hand.2.1 (by norm_num)⟩)]
  rw [if_neg (by rw [hcc]; norm_num)]

/-- Excel separator resolution leaves a single-comma token unchanged. -/
theorem excel_transform_1comma {a b : List Char} (hA : ∀ x ∈ a, x.isDigit = true)
    (hB : ∀ x ∈ b, x.isDigit = true) :
    ReconcileExcel.transform (a ++ ',' :: b) = a ++ ',' :: b := by
  have hdc : (a ++ ',' :: b).count '.' = 0 := by
    simp [List.count_append, List.count_cons,
      count_zero_of_ne fun x hx => digit_ne_dot (hA x hx),
      count_zero_of_ne fun x hx => digit_ne_dot (hB x hx)]
  have hcc : (a ++ ',' :: b).count ',' = 1 := by
    simp [List.count_append, List.count_cons,
      count_zero_of_ne fun x hx => digit_ne_comma (hA x hx),
      count_zero_of_ne fun x hx => digit_ne_comma (hB x hx)]
  unfold ReconcileExcel.transform
  rw [if_neg (not_or.mpr ⟨by rw [hdc]; norm_num, fun hand => by
    rw [hdc] at hand; exact absurd hand.1 (by norm_num)⟩)]
  rw [if_neg (by rw [hcc]; norm_num)]

/-- PDF separator resolution on digits-dot-digits-dot-digits. -/
theorem pdf_transform_2dots {a b c : List Char} (hA : ∀ x ∈ a, x.isDigit = true)
    (hB : ∀ x ∈ b, x.isDigit = true) (hC : ∀ x ∈ c, x.isDigit = true) :
    InvoicePdf.transform (a ++ '.' :: b ++ '.' :: c) = a ++ b ++ c := by
  have hnc : ',' ∉ (a ++ '.' :: b ++ '.' :: c) :=
    comma_not_mem (mem_token2 (fun x hx => Or.inl (hA x hx)) (fun x hx => Or.inl (hB x hx))
      (fun x hx => Or.inl (hC x hx)) (Or.inr rfl))
  have hdc : (a ++ '.' :: b ++ '.' :: c).count '.' = 2 := by
    simp [List.count_append, List.count_cons,
      count_zero_of_ne fun x hx => digit_ne_dot (hA x hx),
      count_zero_of_ne fun x hx => digit_ne_dot (hB x hx),
      count_zero_of_ne fun x hx => digit_ne_dot (hC x hx)]
  unfold InvoicePdf.transform
  rw [if_neg fun hand => hnc hand.2]
  rw [if_pos (by rw [hdc]; norm_num)]
  rw [List.filter_append, filter_strip_sep b (fun x hx => digit_ne_dot (hA x hx)),
    filter_ne_of_all fun x hx => digit_ne_dot (hB x hx), filter_cons_self,
    filter_ne_of_all fun x hx => digit_ne_dot (hC x hx)]

/-- PDF separator resolution on digits-comma-digits-comma-digits. -/
theorem pdf_transform_2commas {a b c : List Char} (hA : ∀ x ∈ a, x.isDigit = true)
    (hB : ∀ x ∈ b, x.isDigit = true) (hC : ∀ x ∈ c, x.isDigit = true) :
    InvoicePdf.transform (a ++ ',' :: b ++ ',' :: c) = a ++ b ++ c := by
  have hnd : '.' ∉ (a ++ ',' :: b ++ ',' :: c) :=
    dot_not_mem (mem_token2 (fun x hx => Or.inl (hA x hx)) (fun x hx => Or.inl (hB x hx))
      (fun x hx => Or.inl (hC x hx)) (Or.inr rfl))
  have hdc : (a ++ ',' :: b ++ ',' :: c).count '.' = 0 := by
    simp [List.count_append, List.count_cons,
      count_zero_of_ne fun x hx => digit_ne_dot (hA x hx),
      count_zero_of_ne fun x hx => digit_ne_dot (hB x hx),
      count_zero_of_ne fun x hx => digit_ne_dot (hC x hx)]
  have hcc : (a ++ ',' :: b ++ ',' :: c).count ',' = 2 := by
    simp [List.count_append, List.count_cons,
      count_zero_of_ne fun x hx => digit_ne_comma (hA x hx),
      count_zero_of_ne fun x hx => digit_ne_comma (hB x hx),
      count_zero_of_ne fun x hx => digit_ne_comma (hC x hx)]
  unfold InvoicePdf.transform
  rw [if_neg fun hand => hnd hand.1]
  rw [if_neg (by rw [hdc]; norm_num)]
  rw [if_pos (by rw [hcc]; norm_num)]
  rw [List.filter_append, filter_strip_sep b (fun x hx => digit_ne_comma (hA x hx)),
    filter_ne_of_all fun x hx => digit_ne_comma (hB x hx), filter_cons_self,
    filter_ne_of_all fun x hx => digit_ne_comma (hC x hx)]

/-- PDF separator resolution leaves a single-dot token unchanged. -/
theorem pdf_transform_1dot {a b : List Char} (hA : ∀ x ∈ a, x.isDigit = true)
    (hB : ∀ x ∈ b, x.isDigit = true) :
    InvoicePdf.transform (a ++ '.' :: b) = a ++ '.' :: b := by
  have hnc : ',' ∉ (a ++ '.' :: b) :=
    comma_not_mem (mem_token1 (fun x hx => Or.inl (hA x hx)) (fun x hx => Or.inl (hB x hx))
      (Or.inr rfl))
  have hdc : (a ++ '.' :: b).count '.' = 1 := by
    simp [List.count_append, List.count_cons,
      count_zero_of_ne fun x hx => digit_ne_dot (hA x hx),
      count_zero_of_ne fun x hx => digit_ne_dot (hB x hx)]
  have hcc : (a ++ '.' :: b).count ',' = 0 := by
    simp [List.count_append, List.count_cons,
      count_zero_of_ne fun x hx => digit_ne_comma (hA x hx),
      count_zero_of_ne fun x hx => digit_ne_comma (hB x hx)]
  unfold InvoicePdf.transform
  rw [if_neg fun hand => hnc hand.2]
  rw [if_neg (by rw [hdc]; norm_num)]
  rw [if_neg (by rw [hcc]; norm_num)]

/-- PDF separator resolution leaves a single-comma token unchanged. -/
theorem pdf_transform_1comma {a b : List Char} (hA : ∀ x ∈ a, x.isDigit = true)
    (hB : ∀ x ∈ b, x.isDigit = true) :
    InvoicePdf.transform (a ++ ',' :: b) = a ++ ',' :: b := by
  have hnd : '.' ∉ (a ++ ',' :: b) :=
    dot_not_mem (mem_token1 (fun x hx => Or.inl (hA x hx)) (fun x hx => Or.inl (hB x hx))
      (Or.inr rfl))
  have hdc : (a ++ ',' :: b).count '.' = 0 := by
    simp [List.count_append, List.count_cons,
      count_zero_of_ne fun x hx => digit_ne_dot (hA x hx),
      count_zero_of_ne fun x hx => digit_ne_dot (hB x hx)]
  have hcc : (a ++ ',' :: b).count ',' = 1 := by
    simp [List.count_append, List.count_cons,
      count_zero_of_ne fun x hx => digit_ne_comma (hA x hx),
      count_zero_of_ne fun x hx => digit_ne_comma (hB x hx)]
  unfold InvoicePdf.transform
  rw [if_neg fun hand => hnd hand.1]
  rw [if_neg (by rw [hdc]; norm_num)]
  rw [if_neg (by rw [hcc]; norm_num)]

/-- List-level evaluation of the Excel parser on an all-digit resolved token. -/
theorem excel_chars_digits {l g : List Char}
    (htr : ReconcileExcel.transform (ReconcileExcel.clean l) = g)
    (hg : ∀ x ∈ g, x.isDigit = true) (hne : g ≠ []) :
    ReconcileExcel.parseChars l = (digitsVal g : ℚ) := by
  unfold ReconcileExcel.parseChars
  simp only [htr, findNum_all (fun x hx => isNumChar_of_digit (hg x hx)) hne,
    pyFloat_digits hg hne, Option.getD_some]

/-- List-level evaluation of the Excel parser on a digits-dot-digits token. -/
theorem excel_chars_decimal {l a b : List Char}
    (htr : ReconcileExcel.transform (ReconcileExcel.clean l) = a ++ '.' :: b)
    (ha : ∀ x ∈ a, x.isDigit = true) (hb : ∀ x ∈ b, x.isDigit = true) (hane : a ≠ []) :
    ReconcileExcel.parseChars l = (digitsVal a : ℚ) + (digitsVal b : ℚ) / 10 ^ b.length := by
  unfold ReconcileExcel.parseChars
  have hnum : ∀ x ∈ a ++ '.' :: b, isNumChar x = true :=
    mem_token1 (fun x hx => isNumChar_of_digit (ha x hx))
      (fun x hx => isNumChar_of_digit (hb x hx)) (by decide)
  simp only [htr, findNum_all hnum (by simp), pyFloat_decimal ha hb hane, Option.getD_some]

/-- List-level evaluation of the Excel parser on a digits-comma-remainder
token: only the digits before the comma are read. -/
theorem excel_chars_comma {l a b : List Char}
    (htr : ReconcileExcel.transform (ReconcileExcel.clean l) = a ++ ',' :: b)
    (ha : ∀ x ∈ a, x.isDigit = true) (hane : a ≠ []) :
    ReconcileExcel.parseChars l = (digitsVal a : ℚ) := by
  unfold ReconcileExcel.parseChars
  simp only [htr, findNum_run_stop (fun x hx => isNumChar_of_digit (ha x hx)) hane
    (show isNumChar ',' = false by decide), pyFloat_digits ha hane, Option.getD_some]

/-- List-level evaluation of the PDF parser on an all-digit resolved token. -/
theorem pdf_chars_digits {l g : List Char}
    (htr : InvoicePdf.transform (InvoicePdf.clean l) = g)
    (hg : ∀ x ∈ g, x.isDigit = true) (hne : g ≠ []) :
    InvoicePdf.parseChars l = (digitsVal g : ℚ) := by
  unfold InvoicePdf.parseChars
  rw [htr, if_neg hne, pyFloat_digits hg hne, Option.getD_some]

/-- List-level evaluation of the PDF parser on a digits-dot-digits token. -/
theorem pdf_chars_decimal {l a b : List Char}
    (htr : InvoicePdf.transform (InvoicePdf.clean l) = a ++ '.' :: b)
    (ha : ∀ x ∈ a, x.isDigit = true) (hb : ∀ x ∈ b, x.isDigit = true) (hane : a ≠ []) :
    InvoicePdf.parseChars l = (digitsVal a : ℚ) + (digitsVal b : ℚ) / 10 ^ b.length := by
  unfold InvoicePdf.parseChars
  rw [htr, if_neg (by simp), pyFloat_decimal ha hb hane, Option.getD_some]

/-- List-level evaluation of the PDF parser on a digits-comma-remainder token:
the conversion fails and the parser recovers to zero. -/
theorem pdf_chars_comma_zero {l a b : List Char}
    (htr : InvoicePdf.transform (InvoicePdf.clean l) = a ++ ',' :: b)
    (ha : ∀ x ∈ a, x.isDigit = true) :
    InvoicePdf.parseChars l = 0 := by
  unfold InvoicePdf.parseChars
  rw [htr, if_neg (by simp), pyFloat_comma_none b ha]
  rfl

/-- C2 (amended): on tokens made of digits and a single separator type, a
separator occurring twice is treated as thousands and removed by both parsers;
a single dot is always treated as the decimal separator, whatever the number
of trailing digits; a single comma is never interpreted: the Excel parser
reads only the digits before it and the PDF parser yields 0. -/
theorem parse_number_single_separator_behavior (a b c : List Char)
    (hA : ∀ x ∈ a, x.isDigit = true) (hB : ∀ x ∈ b, x.isDigit = true)
    (hC : ∀ x ∈ c, x.isDigit = true) (hane : a ≠ []) :
    ReconcileExcel.parse_number (String.mk (a ++ '.' :: b ++ '.' :: c)) =
      (digitsVal (a ++ b ++ c) : ℚ) ∧
    InvoicePdf.parse_number (String.mk (a ++ '.' :: b ++ '.' :: c)) =
      (digitsVal (a ++ b ++ c) : ℚ) ∧
    ReconcileExcel.parse_number (String.mk (a ++ ',' :: b ++ ',' :: c)) =
      (digitsVal (a ++ b ++ c) : ℚ) ∧
    InvoicePdf.parse_number (String.mk (a ++ ',' :: b ++ ',' :: c)) =
      (digitsVal (a ++ b ++ c) : ℚ) ∧
    ReconcileExcel.parse_number (String.mk (a ++ '.' :: b)) =
      (digitsVal a : ℚ) + (digitsVal b : ℚ) / 10 ^ b.length ∧
    InvoicePdf.parse_number (String.mk (a ++ '.' :: b)) =
      (digitsVal a : ℚ) + (digitsVal b : ℚ) / 10 ^ b.length ∧
    ReconcileExcel.parse_number (String.mk (a ++ ',' :: b)) = (digitsVal a : ℚ) ∧
    InvoicePdf.parse_number (String.mk (a ++ ',' :: b)) = 0 := by
  have dA : ∀ x ∈ a, digitOrSep x := fun x hx => Or.inl (hA x hx)
  have dB : ∀ x ∈ b, digitOrSep x := fun x hx => Or.inl (hB x hx)
  have dC : ∀ x ∈ c, digitOrSep x := fun x hx => Or.inl (hC x hx)
  have ds2dot : ∀ x ∈ a ++ '.' :: b ++ '.' :: c, digitOrSep x :=
    mem_token2 dA dB dC (Or.inr (Or.inl rfl))
  have ds2com : ∀ x ∈ a ++ ',' :: b ++ ',' :: c, digitOrSep x :=
    mem_token2 dA dB dC (Or.inr (Or.inr rfl))
  have ds1dot : ∀ x ∈ a ++ '.' :: b, digitOrSep x := mem_token1 dA dB (Or.inr (Or.inl rfl))
  have ds1com : ∀ x ∈ a ++ ',' :: b, digitOrSep x := mem_token1 dA dB (Or.inr (Or.inr rfl))
  have habc : ∀ x ∈ a ++ b ++ c, x.isDigit = true := mem_append3 hA hB hC
  have habcne : a ++ b ++ c ≠ [] := by simp [hane]
  refine ⟨?_, ?_, ?_, ?_, ?_, ?_, ?_, ?_⟩
  · show ReconcileExcel.parseChars (a ++ '.' :: b ++ '.' :: c) = _
    refine excel_chars_digits ?_ habc habcne
    rw [excel_clean_id ds2dot]
    exact excel_transform_2dots hA hB hC
  · show InvoicePdf.parseChars (a ++ '.' :: b ++ '.' :: c) = _
    refine pdf_chars_digits ?_ habc habcne
    rw [pdf_clean_id ds2dot]
    exact pdf_transform_2dots hA hB hC
  · show ReconcileExcel.parseChars (a ++ ',' :: b ++ ',' :: c) = _
    refine excel_chars_digits ?_ habc habcne
    rw [excel_clean_id ds2com]
    exact excel_transform_2commas hA hB hC
  · show InvoicePdf.parseChars (a ++ ',' :: b ++ ',' :: c) = _
    refine pdf_chars_digits ?_ habc habcne
    rw [pdf_clean_id ds2com]
    exact pdf_transform_2commas hA hB hC
  · show ReconcileExcel.parseChars (a ++ '.' :: b) = _
    refine excel_chars_decimal ?_ hA hB hane
    rw [excel_clean_id ds1dot]
    exact excel_transform_1dot hA hB
  · show InvoicePdf.parseChars (a ++ '.' :: b) = _
    refine pdf_chars_decimal ?_ hA hB hane
    rw [pdf_clean_id ds1dot]
    exact pdf_transform_1dot hA hB
  · show ReconcileExcel.parseChars (a ++ ',' :: b) = _
    have htr : ReconcileExcel.transform (ReconcileExcel.clean (a ++ ',' :: b)) =
        a ++ ',' :: b := by
      rw [excel_clean_id ds1com]
      exact excel_transform_1comma hA hB
    exact excel_chars_comma htr hA hane
  · show InvoicePdf.parseChars (a ++ ',' :: b) = _
    have htr : InvoicePdf.transform (InvoicePdf.clean (a ++ ',' :: b)) = a ++ ',' :: b := by
      rw [pdf_clean_id ds1com]
      exact pdf_transform_1comma hA hB
    exact pdf_chars_comma_zero htr hA

/-- Witness for the amended single-separator statement at "1.000". -/
theorem parse_number_single_separator_behavior_witness :
    ReconcileExcel.parse_number (String.mk ("1".data ++ '.' :: "000".data)) =
      (digitsVal "1".data : ℚ) + (digitsVal "000".data : ℚ) / 10 ^ ("000".data).length :=
  (parse_number_single_separator_behavior "1".data "000".data "0".data
    (by decide) (by decide) (by decide) (by decide)).2.2.2.2.1

/-- C10 (amended): the two `_parse_number` implementations agree on every
token made only of digits and dots, though not in general. -/
theorem parse_number_implementations_agree_on_digit_dot (l : List Char)
    (h : ∀ x ∈ l, x.isDigit = true ∨ x = '.') :
    ReconcileExcel.parse_number (String.mk l) = InvoicePdf.parse_number (String.mk l) := by
  show ReconcileExcel.parseChars l = InvoicePdf.parseChars l
  have hds : ∀ x ∈ l, digitOrSep x := fun x hx => (h x hx).elim Or.inl fun e => Or.inr (Or.inl e)
  have hnc : ',' ∉ l := comma_not_mem h
  have hccz : l.count ',' = 0 := List.count_eq_zero.mpr hnc
  have hnum : ∀ x ∈ l, isNumChar x = true := fun x hx => by
    rcases h x hx with hd | rfl
    · exact isNumChar_of_digit hd
    · decide
  unfold ReconcileExcel.parseChars InvoicePdf.parseChars
  rw [excel_clean_id hds, pdf_clean_id hds]
  by_cases hdc : l.count '.' > 1
  · have ht1 : ReconcileExcel.transform l =
        (l.filter (fun c => c ≠ '.')).map (fun c => if c = ',' then '.' else c) := by
      unfold ReconcileExcel.transform
      rw [if_pos (Or.inl hdc)]
    have hmap : (l.filter (fun c => c ≠ '.')).map (fun c => if c = ',' then '.' else c) =
        l.filter (fun c => c ≠ '.') :=
      map_comma_fix fun x hx he => hnc (he ▸ List.mem_of_mem_filter hx)
    have ht2 : InvoicePdf.transform l = l.filter (fun c => c ≠ '.') := by
      unfold InvoicePdf.transform
      rw [if_neg fun hand => hnc hand.2, if_pos hdc]
    rw [ht1, hmap, ht2]
    have hFd : ∀ x ∈ l.filter (fun c => c ≠ '.'), x.isDigit = true := fun x hx => by
      rcases h x (List.mem_of_mem_filter hx) with hd | rfl
      · exact hd
      · have hcontra := List.of_mem_filter hx
        simp at hcontra
    by_cases hFe : l.filter (fun c => c ≠ '.') = []
    · rw [hFe]
      rfl
    · simp only [findNum_all (fun x hx => isNumChar_of_digit (hFd x hx)) hFe, if_neg hFe]
  · have ht1 : ReconcileExcel.transform l = l := by
      unfold ReconcileExcel.transform
      rw [if_neg (not_or.mpr ⟨hdc, fun hand => by
        rw [hccz] at hand; exact absurd hand.2.1 (by norm_num)⟩)]
      rw [if_neg (by rw [hccz]; norm_num)]
    have ht2 : InvoicePdf.transform l = l := by
      unfold InvoicePdf.transform
      rw [if_neg fun hand => hnc hand.2, if_neg hdc, if_neg (by rw [hccz]; norm_num)]
    rw [ht1, ht2]
    by_cases hle : l = []
    · rw [hle]
      rfl
    · simp only [findNum_all hnum hle, if_neg hle]

/-- Witness for the agreement statement at the token "1.5". -/
theorem parse_number_implementations_agree_witness :
    ReconcileExcel.parse_number (String.mk "1.5".data) =
      InvoicePdf.parse_number (String.mk "1.5".data) :=
  parse_number_implementations_agree_on_digit_dot "1.5".data (by decide)

/-! Totals and the PDF totals-extraction embedding (C6). -/

/-- Sparse aggregate totals: a key is absent when the document did not yield
that figure (Python dict with keys `vat_rate`, `vat_amount`,
`total_before_tax`, `total_payment`). -/
structure Totals where
  vat_rate : Option ℚ
  vat_amount : Option ℚ
  total_before_tax : Option ℚ
  total_payment : Option ℚ

/-- Model of Python `text.split('\n')` via an accumulator. -/
def splitLinesAux : List Char → List Char → List (List Char)
  | [], cur => [cur.reverse]
  | c :: rest, cur =>
    if c = '\n' then cur.reverse :: splitLinesAux rest []
    else splitLinesAux rest (c :: cur)

/-- Model of Python `text.split('\n')`. -/
def splitLines (l : List Char) : List (List Char) :=
  splitLinesAux l []

/-- Character class `[\d.,]` of the totals-extraction regex. -/
def numRunChar (c : Char) : Bool :=
  c.isDigit || c == '.' || c == ','

/-- Accumulator loop of the model of `re.findall(r'[\d.,]+', line)`. -/
def findRunsAux : List Char → List Char → List (List Char)
  | [], cur => if cur.isEmpty then [] else [cur.reverse]
  | c :: rest, cur =>
    if numRunChar c then findRunsAux rest (c :: cur)
    else if cur.isEmpty then findRunsAux rest []
    else cur.reverse :: findRunsAux rest []

/-- Model of `re.findall(r'[\d.,]+', line)`: the maximal runs of digits, dots
and commas, in order. -/
def findRuns (l : List Char) : List (List Char) :=
  findRunsAux l []

/-- Prefix test on character lists (model of Python `str.startswith`, used to
model substring search). -/
def listHasPfx : List Char → List Char → Bool
  | [], _ => true
  | _ :: _, [] => false
  | p :: ps, x :: xs => p == x && listHasPfx ps xs

/-- Substring test on character lists: model of Python `needle in haystack`. -/
def listHasSub (p : List Char) : List Char → Bool
  | [] => p.isEmpty
  | x :: xs => listHasPfx p (x :: xs) || listHasSub p xs

/-- Test whether any of the given keywords occurs in the (lowered) line. -/
def kwAny (low : List Char) (kws : List String) : Bool :=
  kws.any (fun k => listHasSub k.data low)

namespace InvoicePdf

/-- One value step of the VAT block of `extract_totals_from_text_content`:
`if 0 < val < 100 and 'vat_rate' not in totals: ... elif val > 100 and
'vat_amount' not in totals: ...`. -/
def vatStep (t : Totals) (v : ℚ) : Totals :=
  if 0 < v ∧ v < 100 then
    if t.vat_rate = none then ⟨some v, t.vat_amount, t.total_before_tax, t.total_payment⟩ else t
  else if 100 < v then
    if t.vat_amount = none then ⟨t.vat_rate, some v, t.total_before_tax, t.total_payment⟩ else t
  else t

/-- One value step of the total-payment block:
`totals['total_payment'] = max(totals.get('total_payment', 0), val)` guarded by
`val > 0`. -/
def payStep (acc : Option ℚ) (v : ℚ) : Option ℚ :=
  if 0 < v then some (max (acc.getD 0) v) else acc

/-- Lower-cased line used for the keyword tests (`line.lower()`; ASCII-exact,
which covers the lower-case keyword alphabets involved). -/
def lineLow (line : List Char) : List Char :=
  line.map Char.toLower

/-- The numbers of a line as parsed by `_parse_number`. -/
def lineVals (line : List Char) : List ℚ :=
  (findRuns line).map parseChars

/-- VAT block of `extract_totals_from_text_content` for one line. -/
def totalsLine1 (t : Totals) (line : List Char) : Totals :=
  if listHasSub "vat".data (lineLow line) || listHasSub "thuế".data (lineLow line) then
    (lineVals line).foldl vatStep t
  else t

/-- Total-before-tax block of `extract_totals_from_text_content` for one line:
the first positive parsed number is recorded, then the loop breaks. -/
def totalsLine2 (t : Totals) (line : List Char) : Totals :=
  if kwAny (lineLow line) ["tổng trước thuế", "subtotal", "before tax"] then
    match (lineVals line).find? (fun v => decide (0 < v)) with
    | some v => ⟨t.vat_rate, t.vat_amount, some v, t.total_payment⟩
    | none => t
  else t

/-- Total-payment block of `extract_totals_from_text_content` for one line. -/
def totalsLine3 (t : Totals) (line : List Char) : Totals :=
  if kwAny (lineLow line) ["tổng thanh toán", "tổng cộng", "grand total", "total payment"] then
    ⟨t.vat_rate, t.vat_amount, t.total_before_tax, (lineVals line).foldl payStep t.total_payment⟩
  else t

/-- One line of the loop of `extract_totals_from_text_content`: the three
keyword blocks in source order. -/
def totalsLine (t : Totals) (line : List Char) : Totals :=
  totalsLine3 (totalsLine2 (totalsLine1 t line) line) line

/-- Embedding of `invoice_pdf.extract_totals_from_text_content`. -/
def extract_totals_from_text_content (s : String) : Totals :=
  (splitLines s.data).foldl totalsLine ⟨none, none, none, none⟩

end InvoicePdf

/-- Positivity invariant maintained by the PDF totals extraction: every
recorded value is strictly positive (and a VAT rate is below 100). -/
def TotalsPos (t : Totals) : Prop :=
  (∀ v, t.vat_rate = some v → 0 < v ∧ v < 100) ∧
  (∀ v, t.vat_amount = some v → 100 < v) ∧
  (∀ v, t.total_before_tax = some v → 0 < v) ∧
  (∀ v, t.total_payment = some v → 0 < v)

/-- The VAT value step preserves the positivity invariant. -/
theorem vatStep_pos {t : Totals} {v : ℚ} (h : TotalsPos t) :
    TotalsPos (InvoicePdf.vatStep t v) := by
  obtain ⟨h1, h2, h3, h4⟩ := h
  unfold InvoicePdf.vatStep
  split_ifs with hc1 hc2 hc3 hc4
  · exact ⟨fun w hw => by cases hw; exact hc1, h2, h3, h4⟩
  · exact ⟨h1, h2, h3, h4⟩
  · exact ⟨h1, fun w hw => by cases hw; exact hc3, h3, h4⟩
  · exact ⟨h1, h2, h3, h4⟩
  · exact ⟨h1, h2, h3, h4⟩

/-- The VAT fold preserves the positivity invariant. -/
theorem vatFold_pos {t : Totals} (vals : List ℚ) (h : TotalsPos t) :
    TotalsPos (vals.foldl InvoicePdf.vatStep t) := by
  induction vals generalizing t with
  | nil => exact h
  | cons x xs ih => exact ih (vatStep_pos h)

/-- The total-payment fold keeps the recorded value positive. -/
theorem payFold_pos {acc : Option ℚ} (vals : List ℚ)
    (h : ∀ v, acc = some v → 0 < v) :
    ∀ v, vals.foldl InvoicePdf.payStep acc = some v → 0 < v := by
  induction vals generalizing acc with
  | nil => exact h
  | cons x xs ih =>
    refine ih ?_
    intro v hv
    unfold InvoicePdf.payStep at hv
    split_ifs at hv with hx
    · cases hv
      exact lt_of_lt_of_le hx (le_max_right _ _)
    · exact h v hv

/-- One extraction line preserves the positivity invariant. -/
theorem totalsLine_pos {t : Totals} (line : List Char) (h : TotalsPos t) :
    TotalsPos (InvoicePdf.totalsLine t line) := by
  have h1 : TotalsPos (InvoicePdf.totalsLine1 t line) := by
    unfold InvoicePdf.totalsLine1
    split_ifs
    · exact vatFold_pos _ h
    · exact h
  have h2 : TotalsPos (InvoicePdf.totalsLine2 (InvoicePdf.totalsLine1 t line) line) := by
    unfold InvoicePdf.totalsLine2
    obtain ⟨g1, g2, g3, g4⟩ := h1
    split_ifs
    · rcases hf : (InvoicePdf.lineVals line).find? (fun v => decide (0 < v)) with _ | v
      · exact ⟨g1, g2, g3, g4⟩
      · have hpos : (0 : ℚ) < v := by
          have := List.find?_some hf
          simpa using this
        exact ⟨g1, g2, fun w hw => by cases hw; exact hpos, g4⟩
    · exact ⟨g1, g2, g3, g4⟩
  unfold InvoicePdf.totalsLine InvoicePdf.totalsLine3
  obtain ⟨g1, g2, g3, g4⟩ := h2
  split_ifs
  · exact ⟨g1, g2, g3, payFold_pos _ g4⟩
  · exact ⟨g1, g2, g3, g4⟩

/-- C6 (amended): the PDF totals extraction only ever emits keys for values it
parsed to a strictly positive number (the VAT rate additionally below 100); a
zero-valued total in the document is left as an absent key. -/
theorem extract_totals_only_positive (s : String) :
    (∀ v, (InvoicePdf.extract_totals_from_text_content s).vat_rate = some v →
      0 < v ∧ v < 100) ∧
    (∀ v, (InvoicePdf.extract_totals_from_text_content s).vat_amount = some v → 100 < v) ∧
    (∀ v, (InvoicePdf.extract_totals_from_text_content s).total_before_tax = some v → 0 < v) ∧
    (∀ v, (InvoicePdf.extract_totals_from_text_content s).total_payment = some v → 0 < v) := by
  have hgen : ∀ (ls : List (List Char)) (t : Totals), TotalsPos t →
      TotalsPos (ls.foldl InvoicePdf.totalsLine t) := by
    intro ls
    induction ls with
    | nil => exact fun t h => h
    | cons x xs ih => exact fun t h => ih _ (totalsLine_pos x h)
  have hstart : TotalsPos ⟨none, none, none, none⟩ := by
    refine ⟨?_, ?_, ?_, ?_⟩ <;> exact fun v h => nomatch h
  exact hgen (splitLines s.data) ⟨none, none, none, none⟩ hstart

/-- Witness for the amended C6 statement: a document recording "total payment 5"
yields a positive recorded total. -/
theorem extract_totals_only_positive_witness : (0 : ℚ) < 5 :=
  (extract_totals_only_positive "total payment 5").2.2.2 5 (by decide)

/-- C6 counterexample: a document line recording a total payment of zero yields
no `total_payment` key at all — the recorded zero becomes an absent key, while
"total payment 5" shows that the same line shape does emit a key for a
positive value. -/
theorem extract_totals_drops_zero_total_cex :
    (InvoicePdf.extract_totals_from_text_content "total payment 0").total_payment = none ∧
    (InvoicePdf.extract_totals_from_text_content "total payment 5").total_payment = some 5 ∧
    InvoicePdf.parse_number "0" = 0 := by
  refine ⟨by decide, by decide, by decide⟩

/-! The reconciliation engine. The module `core/compare.py` is not among the
available sources (only its caller `src/app.py` is), so the engine is
modelled from the specification, sections 4.2-4.5. -/

namespace Core

/-- Modelled from the spec: the small ε of §4.2 guarding `numeric_match`
against division issues when both values are near zero (core/compare.py is
not available under src). -/
def eps : ℚ := 1 / 1000000000

/-- Modelled from the spec: `numeric_match(a, b, tolerance)` of the
ToleranceComparator (§4.2, core/compare.py not available under src): true iff
`|a-b| <= tolerance * max(|a|, |b|, ε)`, with both-exactly-zero always a
match. -/
def numeric_match (a b t : ℚ) : Bool :=
  if a = 0 ∧ b = 0 then true
  else decide (|a - b| ≤ t * max |a| (max |b| eps))

/-- Modelled from the spec: origin tag of a canonical line item (§3). -/
inductive Origin
  | reconciliation
  | invoice
deriving DecidableEq

/-- Modelled from the spec: CanonicalLineItem (§3, core/normalize.py not
available under src). -/
structure CanonicalLineItem where
  product_type : String
  match_key : String
  denomination : ℚ
  quantity : ℚ
  amount : ℚ
  discount : ℚ
  origin : Origin

/-- Modelled from the spec: the four row statuses of §3. -/
inductive RowStatus
  | MATCH
  | MISMATCH
  | MISSING_IN_INVOICE
  | EXTRA_IN_INVOICE
deriving DecidableEq

/-- Modelled from the spec: ComparisonRow (§3). -/
structure ComparisonRow where
  left : Option CanonicalLineItem
  right : Option CanonicalLineItem
  status : RowStatus
  field_results : List (String × Bool)

/-- Modelled from the spec: the per-field comparison of §4.3 step 4 —
`denomination`, `quantity` and `amount` via `numeric_match` with the amount
tolerance. -/
def compareFields (l r : CanonicalLineItem) (tolAmount : ℚ) : List (String × Bool) :=
  [("denomination", numeric_match l.denomination r.denomination tolAmount),
   ("quantity", numeric_match l.quantity r.quantity tolAmount),
   ("amount", numeric_match l.amount r.amount tolAmount)]

/-- Modelled from the spec: the row produced for a successful pairing (§4.3
step 4): MATCH iff all compared fields match, else MISMATCH. -/
def pairRow (l r : CanonicalLineItem) (tolAmount : ℚ) : ComparisonRow :=
  ⟨some l, some r,
    if (compareFields l r tolAmount).all (fun p => p.2) then RowStatus.MATCH
    else RowStatus.MISMATCH,
    compareFields l r tolAmount⟩

/-- Modelled from the spec: the row for a reconciliation item with no
acceptable candidate (§4.3 step 5). -/
def missingRow (l : CanonicalLineItem) : ComparisonRow :=
  ⟨some l, none, RowStatus.MISSING_IN_INVOICE, []⟩

/-- Modelled from the spec: the row for an unconsumed invoice item (§4.3
step 6). -/
def extraRow (r : CanonicalLineItem) : ComparisonRow :=
  ⟨none, some r, RowStatus.EXTRA_IN_INVOICE, []⟩

/-- Modelled from the spec: the pool of unconsumed invoice items indexed by
original position (§4.3 step 1). -/
def indexPool : List CanonicalLineItem → Nat → List (Nat × CanonicalLineItem)
  | [], _ => []
  | x :: xs, i => (i, x) :: indexPool xs (i + 1)

/-- Modelled from the spec: a left fold keeping the first best element under a
strict betterness test — realizing the lowest-original-index tie-break of
§4.3 steps 2-3. -/
def argBest (better : Nat × CanonicalLineItem → Nat × CanonicalLineItem → Bool) :
    Nat × CanonicalLineItem → List (Nat × CanonicalLineItem) → Nat × CanonicalLineItem
  | e, [] => e
  | e, x :: xs => argBest better (if better x e then x else e) xs

/-- Modelled from the spec: candidate selection of §4.3 steps 2-3: exact
match-key lookup selecting the closest quantity (ties to the lowest original
index), then, with fuzzy enabled, the highest similarity score at or above the
0.8 acceptance threshold (ties to the lowest original index). -/
def pick (sim : String → String → ℚ) (fuzzy : Bool) (r : CanonicalLineItem)
    (pool : List (Nat × CanonicalLineItem)) : Option (Nat × CanonicalLineItem) :=
  match pool.filter (fun e => e.2.match_key == r.match_key) with
  | e :: es => some (argBest (fun x y =>
      decide (|x.2.quantity - r.quantity| < |y.2.quantity - r.quantity|)) e es)
  | [] =>
    if fuzzy then
      match pool.filter (fun e => decide ((4 : ℚ) / 5 ≤ sim r.match_key e.2.match_key)) with
      | c :: cs => some (argBest (fun x y =>
          decide (sim r.match_key y.2.match_key < sim r.match_key x.2.match_key)) c cs)
      | [] => none
    else none

/-- Modelled from the spec: the main matching loop of §4.3 steps 2-5, returning
the rows for the reconciliation items together with the remaining pool. -/
def matchLoop (sim : String → String → ℚ) (fuzzy : Bool) (tolAmount : ℚ) :
    List CanonicalLineItem → List (Nat × CanonicalLineItem) →
      List ComparisonRow × List (Nat × CanonicalLineItem)
  | [], pool => ([], pool)
  | r :: rs, pool =>
    match pick sim fuzzy r pool with
    | some e =>
      let res := matchLoop sim fuzzy tolAmount rs (pool.filter (fun p => p.1 ≠ e.1))
      (pairRow r e.2 tolAmount :: res.1, res.2)
    | none =>
      let res := matchLoop sim fuzzy tolAmount rs pool
      (missingRow r :: res.1, res.2)

/-- Modelled from the spec: `match` of the Matcher (§4.3; named `matchItems`
since `match` is reserved): rows in reconciliation order followed by
EXTRA_IN_INVOICE rows for the remaining pool, in invoice order. -/
def matchItems (sim : String → String → ℚ) (recon invoice : List CanonicalLineItem)
    (tolAmount tolVat : ℚ) (fuzzy : Bool) : List ComparisonRow :=
  (matchLoop sim fuzzy tolAmount recon (indexPool invoice 0)).1 ++
    (matchLoop sim fuzzy tolAmount recon (indexPool invoice 0)).2.map (fun e => extraRow e.2)

/-- Modelled from the spec: TotalsComparison (§3, §4.4), with the raw values
and per-field flags exposed under the key names used by `src/app.py`. -/
structure TotalsComparison where
  reconciliation_vat_rate : Option ℚ
  invoice_vat_rate : Option ℚ
  vat_rate_match : Bool
  reconciliation_vat_amount : Option ℚ
  invoice_vat_amount : Option ℚ
  vat_amount_match : Bool
  reconciliation_total_before_tax : Option ℚ
  invoice_total_before_tax : Option ℚ
  total_before_tax_match : Bool
  reconciliation_total_payment : Option ℚ
  invoice_total_payment : Option ℚ
  total_payment_match : Bool
  totals_match : Bool

/-- Modelled from the spec: per-field match flag of §4.4 — true only if the
field is present on both sides and within tolerance. -/
def fieldFlag (x y : Option ℚ) (t : ℚ) : Bool :=
  match x, y with
  | some a, some b => numeric_match a b t
  | _, _ => false

/-- Modelled from the spec: contribution of one field to the overall verdict
of §4.4 — fields absent on either side are excluded from the conjunction. -/
def fieldOk (x y : Option ℚ) (t : ℚ) : Bool :=
  !(x.isSome && y.isSome) || fieldFlag x y t

/-- Modelled from the spec: `reconcile_totals` of the TotalsReconciler (§4.4):
VAT fields compared under the VAT tolerance, amount fields under the amount
tolerance; `totals_match` is the conjunction over fields present on both
sides. -/
def reconcile_totals (r i : Totals) (tolAmount tolVat : ℚ) : TotalsComparison :=
  ⟨r.vat_rate, i.vat_rate, fieldFlag r.vat_rate i.vat_rate tolVat,
   r.vat_amount, i.vat_amount, fieldFlag r.vat_amount i.vat_amount tolVat,
   r.total_before_tax, i.total_before_tax,
   fieldFlag r.total_before_tax i.total_before_tax tolAmount,
   r.total_payment, i.total_payment, fieldFlag r.total_payment i.total_payment tolAmount,
   fieldOk r.vat_rate i.vat_rate tolVat && fieldOk r.vat_amount i.vat_amount tolVat &&
     fieldOk r.total_before_tax i.total_before_tax tolAmount &&
     fieldOk r.total_payment i.total_payment tolAmount⟩

/-- Count of rows carrying a given status. -/
def rowCount (s : RowStatus) (rows : List ComparisonRow) : Nat :=
  rows.countP (fun row => row.status == s)

/-- Modelled from the spec: the Summary of §4.5. -/
structure Summary where
  matched_items : Nat
  mismatched_items : Nat
  totals_match : Bool

/-- Modelled from the spec: `aggregate` of the ResultAggregator (§4.5):
matched = MATCH count; mismatched = MISMATCH + MISSING + EXTRA;
`totals_match` passed through. -/
def aggregate (rows : List ComparisonRow) (tc : TotalsComparison) : Summary :=
  ⟨rowCount RowStatus.MATCH rows,
   rowCount RowStatus.MISMATCH rows + rowCount RowStatus.MISSING_IN_INVOICE rows +
     rowCount RowStatus.EXTRA_IN_INVOICE rows,
   tc.totals_match⟩

/-- Modelled from the spec: the configuration error of §7 (c). -/
inductive EngineError
  | invalidToleranceConfiguration
deriving DecidableEq

/-- Modelled from the spec: the full output bundle of `compare_datasets`
(rows, totals comparison and summary), produced together or not at all. -/
structure CompareResult where
  rows : List ComparisonRow
  totals_comparison : TotalsComparison
  summary : Summary

/-- Modelled from the spec: `compare_datasets` as called by `src/app.py`:
tolerances are validated to lie in `[0,1)` before any comparison; an invalid
tolerance fails fast with InvalidToleranceConfiguration and produces no rows
and no summary. -/
def compare_datasets (sim : String → String → ℚ) (recon invoice : List CanonicalLineItem)
    (rt it : Totals) (tolVat tolAmount : ℚ) (fuzzy : Bool) :
    Except EngineError CompareResult :=
  if 0 ≤ tolVat ∧ tolVat < 1 ∧ 0 ≤ tolAmount ∧ tolAmount < 1 then
    Except.ok
      ⟨matchItems sim recon invoice tolAmount tolVat fuzzy,
       reconcile_totals rt it tolAmount tolVat,
       aggregate (matchItems sim recon invoice tolAmount tolVat fuzzy)
         (reconcile_totals rt it tolAmount tolVat)⟩
  else Except.error EngineError.invalidToleranceConfiguration

end Core

/-- C4: `numeric_match` returns true iff the difference is within the relative
tolerance band `tolerance * max(|a|, |b|, ε)`; two exact zeros always match;
tolerance zero accepts exactly the equal pairs. -/
theorem numeric_match_spec (a b t : ℚ) (h0 : 0 ≤ t) (h1 : t < 1) :
    (Core.numeric_match a b t = true ↔ |a - b| ≤ t * max |a| (max |b| Core.eps)) ∧
    (a = 0 → b = 0 → Core.numeric_match a b t = true) ∧
    (Core.numeric_match a b 0 = true ↔ a = b) := by
  have hM : (0 : ℚ) ≤ t * max |a| (max |b| Core.eps) :=
    mul_nonneg h0 (le_trans (abs_nonneg a) (le_max_left _ _))
  refine ⟨?_, ?_, ?_⟩
  · unfold Core.numeric_match
    split_ifs with hc
    · constructor
      · intro _
        rcases hc with ⟨rfl, rfl⟩
        simpa using hM
      · intro _
        rfl
    · rw [decide_eq_true_eq]
  · intro ha hb
    unfold Core.numeric_match
    rw [if_pos ⟨ha, hb⟩]
  · unfold Core.numeric_match
    split_ifs with hc
    · constructor
      · intro _
        rw [hc.1, hc.2]
      · intro _
        rfl
    · rw [decide_eq_true_eq, zero_mul, abs_nonpos_iff, sub_eq_zero]

/-- Witness for C4 at both-zero inputs and tolerance one half. -/
theorem numeric_match_spec_witness : Core.numeric_match 0 0 (1 / 2) = true :=
  (numeric_match_spec 0 0 (1 / 2) (by norm_num) (by norm_num)).2.1 rfl rfl

/-- The per-field conjunct is satisfied exactly when any two recorded values
match within tolerance. -/
theorem fieldOk_iff (x y : Option ℚ) (t : ℚ) :
    Core.fieldOk x y t = true ↔
      ∀ a b, x = some a → y = some b → Core.numeric_match a b t = true := by
  cases x <;> cases y <;> simp [Core.fieldOk, Core.fieldFlag]

/-- C5: the overall `totals_match` flag is true iff every one of the four
recognized fields that is present on both sides matches within its tolerance;
fields absent on either side are excluded and never force a false verdict. -/
theorem reconcile_totals_match_iff (r i : Totals) (tolAmount tolVat : ℚ) :
    (Core.reconcile_totals r i tolAmount tolVat).totals_match = true ↔
      ((∀ a b, r.vat_rate = some a → i.vat_rate = some b →
          Core.numeric_match a b tolVat = true) ∧
       (∀ a b, r.vat_amount = some a → i.vat_amount = some b →
          Core.numeric_match a b tolVat = true) ∧
       (∀ a b, r.total_before_tax = some a → i.total_before_tax = some b →
          Core.numeric_match a b tolAmount = true) ∧
       (∀ a b, r.total_payment = some a → i.total_payment = some b →
          Core.numeric_match a b tolAmount = true)) := by
  show (Core.fieldOk r.vat_rate i.vat_rate tolVat &&
      Core.fieldOk r.vat_amount i.vat_amount tolVat &&
      Core.fieldOk r.total_before_tax i.total_before_tax tolAmount &&
      Core.fieldOk r.total_payment i.total_payment tolAmount) = true ↔ _
  simp only [Bool.and_eq_true, fieldOk_iff]
  tauto

/-- Witness for C5: scenario 4 of the spec — reconciliation records a VAT rate
the invoice lacks; the field is excluded and the overall verdict is true. -/
theorem reconcile_totals_match_iff_witness :
    (Core.reconcile_totals ⟨some 10, none, none, some 1100000⟩
      ⟨none, none, none, some 1100000⟩ 0 0).totals_match = true := by
  refine (reconcile_totals_match_iff ⟨some 10, none, none, some 1100000⟩
      ⟨none, none, none, some 1100000⟩ 0 0).mpr ⟨?_, ?_, ?_, ?_⟩
  · exact fun a b _ hb => nomatch hb
  · exact fun a b ha _ => nomatch ha
  · exact fun a b ha _ => nomatch ha
  · intro a b ha hb
    cases ha
    cases hb
    show Core.numeric_match 1100000 1100000 0 = true
    unfold Core.numeric_match
    rw [if_neg fun hc => absurd hc.1 (by norm_num)]
    rw [decide_eq_true_eq]
    simp

/-! Structural lemmas for the matcher (C7, C8, C9). -/

/-- The best-element fold stays within the candidates it is given. -/
theorem argBest_mem (better : Nat × Core.CanonicalLineItem → Nat × Core.CanonicalLineItem → Bool) :
    ∀ (l : List (Nat × Core.CanonicalLineItem)) (e), Core.argBest better e l ∈ e :: l := by
  intro l
  induction l with
  | nil => intro e; exact List.mem_cons_self e []
  | cons x xs ih =>
    intro e
    have h := ih (if better x e then x else e)
    rcases List.mem_cons.1 h with h | h
    · show Core.argBest better (if better x e then x else e) xs ∈ e :: x :: xs
      rw [h]
      split_ifs
      · exact List.mem_cons_of_mem e (List.mem_cons_self x xs)
      · exact List.mem_cons_self e (x :: xs)
    · exact List.mem_cons_of_mem e (List.mem_cons_of_mem x h)

/-- A selected candidate always comes from the pool. -/
theorem pick_mem {sim : String → String → ℚ} {fuzzy : Bool} {r : Core.CanonicalLineItem}
    {pool : List (Nat × Core.CanonicalLineItem)} {e : Nat × Core.CanonicalLineItem}
    (h : Core.pick sim fuzzy r pool = some e) : e ∈ pool := by
  unfold Core.pick at h
  rcases hf : pool.filter (fun e => e.2.match_key == r.match_key) with _ | ⟨x, xs⟩
  · rw [hf] at h
    split_ifs at h
    · rcases hg : pool.filter
          (fun e => decide ((4 : ℚ) / 5 ≤ sim r.match_key e.2.match_key)) with _ | ⟨c, cs⟩
      · rw [hg] at h
        cases h
      · rw [hg] at h
        cases h
        have hm := argBest_mem (fun x y =>
          decide (sim r.match_key y.2.match_key < sim r.match_key x.2.match_key)) cs c
        rw [← hg] at hm
        exact List.mem_of_mem_filter hm
  · rw [hf] at h
    cases h
    have hm := argBest_mem (fun a y =>
      decide (|a.2.quantity - r.quantity| < |y.2.quantity - r.quantity|)) xs x
    rw [← hf] at hm
    exact List.mem_of_mem_filter hm

/-- Removing one pool entry by its unique index is a permutation step. -/
theorem perm_filter_of_mem {pool : List (Nat × Core.CanonicalLineItem)}
    {e : Nat × Core.CanonicalLineItem} (he : e ∈ pool)
    (hnd : (pool.map Prod.fst).Nodup) :
    List.Perm pool (e :: pool.filter (fun p => p.1 ≠ e.1)) := by
  induction pool with
  | nil => cases he
  | cons p ps ih =>
    rw [List.map_cons, List.nodup_cons] at hnd
    rcases List.mem_cons.1 he with rfl | he'
    · have hfe : ps.filter (fun q => q.1 ≠ e.1) = ps := List.filter_eq_self.mpr fun q hq => by
        simp only [decide_eq_true_eq]
        intro hq1
        exact hnd.1 (hq1 ▸ List.mem_map_of_mem Prod.fst hq)
      rw [List.filter_cons, if_neg (by simp), hfe]
    · have hpe : p.1 ≠ e.1 := fun h1 => hnd.1 (h1 ▸ List.mem_map_of_mem Prod.fst he')
      rw [List.filter_cons, if_pos (by simpa using hpe)]
      exact (List.Perm.cons p (ih he' hnd.2)).trans (List.Perm.swap e p _)

/-- The indexed pool projects back to the invoice items. -/
theorem indexPool_map_snd : ∀ (l : List Core.CanonicalLineItem) (i : Nat),
    (Core.indexPool l i).map Prod.snd = l := by
  intro l
  induction l with
  | nil => intro i; rfl
  | cons x xs ih => intro i; simp [Core.indexPool, ih]

/-- Every index stored in the pool is at least the starting index. -/
theorem indexPool_fst_ge : ∀ (l : List Core.CanonicalLineItem) (k j : Nat),
    j ∈ (Core.indexPool l k).map Prod.fst → k ≤ j := by
  intro l
  induction l with
  | nil => intro k j h; cases h
  | cons x xs ih =>
    intro k j h
    rcases List.mem_cons.1 h with rfl | h
    · exact Nat.le_refl j
    · exact Nat.le_of_succ_le (ih (k + 1) j h)

/-- The original indices of the pool are distinct. -/
theorem indexPool_fst_nodup : ∀ (l : List Core.CanonicalLineItem) (i : Nat),
    ((Core.indexPool l i).map Prod.fst).Nodup := by
  intro l
  induction l with
  | nil => intro i; exact List.nodup_nil
  | cons x xs ih =>
    intro i
    rw [Core.indexPool, List.map_cons, List.nodup_cons]
    exact ⟨fun hmem => absurd (indexPool_fst_ge xs (i + 1) i hmem) (by omega), ih (i + 1)⟩

/-- The left components of the loop's rows are exactly the reconciliation
items, in input order. -/
theorem matchLoop_lefts (sim : String → String → ℚ) (fuzzy : Bool) (tolAmount : ℚ) :
    ∀ (rs : List Core.CanonicalLineItem) (pool),
      (Core.matchLoop sim fuzzy tolAmount rs pool).1.filterMap Core.ComparisonRow.left = rs := by
  intro rs
  induction rs with
  | nil => intro pool; rfl
  | cons r rs ih =>
    intro pool
    simp only [Core.matchLoop]
    rcases hp : Core.pick sim fuzzy r pool with _ | e
    · simp only [List.filterMap_cons, Core.missingRow, ih]
    · simp only [List.filterMap_cons, Core.pairRow, ih]

/-- The right components of the loop's rows together with the remaining pool
are a permutation of the pool. -/
theorem matchLoop_rights (sim : String → String → ℚ) (fuzzy : Bool) (tolAmount : ℚ) :
    ∀ (rs : List Core.CanonicalLineItem) (pool), (pool.map Prod.fst).Nodup →
      List.Perm
        ((Core.matchLoop sim fuzzy tolAmount rs pool).1.filterMap Core.ComparisonRow.right ++
          (Core.matchLoop sim fuzzy tolAmount rs pool).2.map Prod.snd)
        (pool.map Prod.snd) := by
  intro rs
  induction rs with
  | nil =>
    intro pool hnd
    simp only [Core.matchLoop, List.filterMap_nil, List.nil_append]
    exact List.Perm.refl _
  | cons r rs ih =>
    intro pool hnd
    simp only [Core.matchLoop]
    rcases hp : Core.pick sim fuzzy r pool with _ | e
    · simp only [List.filterMap_cons, Core.missingRow]
      exact ih pool hnd
    · have he : e ∈ pool := pick_mem hp
      have hperm := perm_filter_of_mem he hnd
      have hnd' : ((pool.filter (fun p => p.1 ≠ e.1)).map Prod.fst).Nodup :=
        hnd.sublist ((List.filter_sublist pool).map Prod.fst)
      simp only [List.filterMap_cons, Core.pairRow, List.cons_append]
      refine (List.Perm.cons e.2 (ih _ hnd')).trans ?_
      have hmap := hperm.map Prod.snd
      rw [List.map_cons] at hmap
      exact hmap.symm

/-- Every row carries exactly one of the four statuses, so the row count is
the sum of the four per-status counts. -/
theorem length_eq_sum_counts (rows : List Core.ComparisonRow) :
    rows.length = Core.rowCount Core.RowStatus.MATCH rows +
      Core.rowCount Core.RowStatus.MISMATCH rows +
      Core.rowCount Core.RowStatus.MISSING_IN_INVOICE rows +
      Core.rowCount Core.RowStatus.EXTRA_IN_INVOICE rows := by
  induction rows with
  | nil => rfl
  | cons row rest ih =>
    cases hs : row.status <;>
      simp [Core.rowCount, List.countP_cons, hs] at ih ⊢ <;> omega

/-- C7: the matcher's rows satisfy the count invariant — the number of rows is
the sum of the four per-status counts — and every reconciliation item and
every invoice item appears in exactly one row: the left components are exactly
the reconciliation sequence and the right components are a permutation of the
invoice sequence. -/
theorem matchItems_count_invariant (sim : String → String → ℚ)
    (recon invoice : List Core.CanonicalLineItem) (tolAmount tolVat : ℚ) (fuzzy : Bool) :
    (Core.matchItems sim recon invoice tolAmount tolVat fuzzy).length =
        Core.rowCount Core.RowStatus.MATCH
          (Core.matchItems sim recon invoice tolAmount tolVat fuzzy) +
        Core.rowCount Core.RowStatus.MISMATCH
          (Core.matchItems sim recon invoice tolAmount tolVat fuzzy) +
        Core.rowCount Core.RowStatus.MISSING_IN_INVOICE
          (Core.matchItems sim recon invoice tolAmount tolVat fuzzy) +
        Core.rowCount Core.RowStatus.EXTRA_IN_INVOICE
          (Core.matchItems sim recon invoice tolAmount tolVat fuzzy) ∧
    (Core.matchItems sim recon invoice tolAmount tolVat fuzzy).filterMap
        Core.ComparisonRow.left = recon ∧
    List.Perm ((Core.matchItems sim recon invoice tolAmount tolVat fuzzy).filterMap
        Core.ComparisonRow.right) invoice := by
  have hex_left : ∀ (ps : List (Nat × Core.CanonicalLineItem)),
      (ps.map (fun e => Core.extraRow e.2)).filterMap Core.ComparisonRow.left = [] := by
    intro ps
    induction ps with
    | nil => rfl
    | cons p ps ih =>
      rw [List.map_cons, List.filterMap_cons]
      exact ih
  have hex_right : ∀ (ps : List (Nat × Core.CanonicalLineItem)),
      (ps.map (fun e => Core.extraRow e.2)).filterMap Core.ComparisonRow.right =
        ps.map Prod.snd := by
    intro ps
    induction ps with
    | nil => rfl
    | cons p ps ih =>
      rw [List.map_cons, List.filterMap_cons]
      exact congrArg (p.2 :: ·) ih
  refine ⟨length_eq_sum_counts _, ?_, ?_⟩
  · unfold Core.matchItems
    rw [List.filterMap_append, matchLoop_lefts, hex_left, List.append_nil]
  · unfold Core.matchItems
    rw [List.filterMap_append, hex_right]
    have h := matchLoop_rights sim fuzzy tolAmount recon (Core.indexPool invoice 0)
      (indexPool_fst_nodup invoice 0)
    rw [indexPool_map_snd] at h
    exact h

/-- C8: any tolerance outside `[0,1)` makes the engine fail fast with
InvalidToleranceConfiguration, producing no rows and no summary. -/
theorem compare_datasets_invalid_tolerance (sim : String → String → ℚ)
    (recon invoice : List Core.CanonicalLineItem) (rt it : Totals)
    (tolVat tolAmount : ℚ) (fuzzy : Bool)
    (h : ¬(0 ≤ tolVat ∧ tolVat < 1) ∨ ¬(0 ≤ tolAmount ∧ tolAmount < 1)) :
    Core.compare_datasets sim recon invoice rt it tolVat tolAmount fuzzy =
      Except.error Core.EngineError.invalidToleranceConfiguration := by
  unfold Core.compare_datasets
  rw [if_neg]
  rintro ⟨h1, h2, h3, h4⟩
  rcases h with h | h
  · exact h ⟨h1, h2⟩
  · exact h ⟨h3, h4⟩

/-- Witness for C8 at a VAT tolerance of 2, which lies outside `[0,1)`. -/
theorem compare_datasets_invalid_tolerance_witness :
    Core.compare_datasets (fun _ _ => 0) [] [] ⟨none, none, none, none⟩
      ⟨none, none, none, none⟩ 2 0 false =
      Except.error Core.EngineError.invalidToleranceConfiguration :=
  compare_datasets_invalid_tolerance (fun _ _ => 0) [] [] ⟨none, none, none, none⟩
    ⟨none, none, none, none⟩ 2 0 false (Or.inl fun hc => absurd hc.2 (by norm_num))

/-- C9: the engine is deterministic — equal inputs, totals, tolerances and
flags give equal matcher rows and equal full results on any two runs. -/
theorem engine_deterministic (sim sim' : String → String → ℚ)
    (recon recon' invoice invoice' : List Core.CanonicalLineItem) (rt rt' it it' : Totals)
    (tolVat tolVat' tolAmount tolAmount' : ℚ) (fuzzy fuzzy' : Bool)
    (hs : sim = sim') (hr : recon = recon') (hi : invoice = invoice') (hrt : rt = rt')
    (hit : it = it') (hv : tolVat = tolVat') (ha : tolAmount = tolAmount')
    (hf : fuzzy = fuzzy') :
    Core.matchItems sim recon invoice tolAmount tolVat fuzzy =
      Core.matchItems sim' recon' invoice' tolAmount' tolVat' fuzzy' ∧
    Core.compare_datasets sim recon invoice rt it tolVat tolAmount fuzzy =
      Core.compare_datasets sim' recon' invoice' rt' it' tolVat' tolAmount' fuzzy' := by
  subst hs hr hi hrt hit hv ha hf
  exact ⟨rfl, rfl⟩

/-- Witness for C9 on a concrete duplicated input. -/
theorem engine_deterministic_witness :
    Core.matchItems (fun _ _ => 0) [] [] 0 0 false =
      Core.matchItems (fun _ _ => 0) [] [] 0 0 false ∧
    Core.compare_datasets (fun _ _ => 0) [] [] ⟨none, none, none, none⟩
        ⟨none, none, none, none⟩ 0 0 false =
      Core.compare_datasets (fun _ _ => 0) [] [] ⟨none, none, none, none⟩
        ⟨none, none, none, none⟩ 0 0 false :=
  engine_deterministic (fun _ _ => 0) (fun _ _ => 0) [] [] [] []
    ⟨none, none, none, none⟩ ⟨none, none, none, none⟩
    ⟨none, none, none, none⟩ ⟨none, none, none, none⟩
    0 0 0 0 false false rfl rfl rfl rfl rfl rfl rfl rfl

end InvoiceCompare
